import Mathlib

/-!
Verification of the retrieval query/indexing core of the playwriting RAG
helper (chromadb_save.py, rag_chroma_query.py, query_cli.py).

The embedding models the Python source shallowly:
* strings are Lean `String`s; where character-level reasoning is needed the
  work happens on `List Char` (`String.data`);
* Python's truthiness, `dict.get`, `str.strip`, `str.replace(old, new, 1)`,
  `"\r\n"/"\r"` normalisation, `int(...)` parsing, and the one concrete
  regular expression `CONTENT_RE` are each translated into explicit
  executable functions (the regex is compiled by hand into a
  leftmost-search / greedy-`\s*`-with-backtracking / lazy-`.*?` scanner,
  mirroring how `re.search` runs this particular pattern);
* dynamic failures (AttributeError, TypeError, IndexError) are `Except`;
* only ASCII whitespace/digits are modelled (CPython also accepts some
  Unicode in `str.strip` and `int`); external collaborators (the embedding
  model, the Chroma client, `json.loads`) are abstracted as parameters.
-/

/-- Python's ASCII whitespace characters, as used by `str.strip()` and `\s`. -/
def pyWsChar (c : Char) : Bool :=
  c = ' ' || c = '\t' || c = '\n' || c = '\r' || c = '\x0b' || c = '\x0c'

/-- Remove trailing Python whitespace (the right half of `str.strip()`). -/
def stripEnd (l : List Char) : List Char :=
  (l.reverse.dropWhile pyWsChar).reverse

/-- Python `str.strip()` on character lists. -/
def pyStrip (l : List Char) : List Char :=
  stripEnd (l.dropWhile pyWsChar)

/-- Python `str.strip()` on strings. -/
def pyStripS (s : String) : String :=
  ⟨pyStrip s.data⟩

/-- First-match association-list lookup; the lookup semantics of a Python
dict (whose keys are unique, so first match is the match). -/
def dlookup {κ α : Type} [DecidableEq κ] (k : κ) : List (κ × α) → Option α
  | [] => none
  | (k', v) :: d => if k' = k then some v else dlookup k d

/-- Equality-filter maps sent to the store: string keys to string values. -/
abbrev Dict := List (String × String)

/-- Python dict assignment `d[k] = v`: update the value in place if the key
is present, append the pair otherwise. -/
def dictInsert (d : Dict) (k : String) (v : String) : Dict :=
  if (dlookup k d).isSome then d.map (fun p => if p.1 = k then (k, v) else p)
  else d ++ [(k, v)]

/-- Python `{**d, **e}`: start from `d` and assign every entry of `e` in
order, so entries of `e` override entries of `d` on key collision. -/
def dictMerge (d e : Dict) : Dict :=
  e.foldl (fun acc p => dictInsert acc p.1 p.2) d

/-- Python truthiness of an optional string argument (`None` and `""` are
falsy). -/
def truthyOptStr : Option String → Bool
  | none => false
  | some s => !s.isEmpty

/-- Python truthiness of an optional dict argument (`None` and `{}` are
falsy). -/
def truthyOptDict : Option Dict → Bool
  | none => false
  | some d => !d.isEmpty

/-- The `where` filter constructed by `RagChromaQuery.query`
(rag_chroma_query.py lines 109-123):

    where = None
    if step and where_extra:
        where = {"pipeline_step": step, **where_extra}
    elif step:
        where = {"pipeline_step": step}
    elif where_extra:
        where = dict(where_extra)
-/
def mkWhere (step : Option String) (where_extra : Option Dict) : Option Dict :=
  if truthyOptStr step && truthyOptDict where_extra then
    some (dictMerge [("pipeline_step", step.getD "")] (where_extra.getD []))
  else if truthyOptStr step then
    some [("pipeline_step", step.getD "")]
  else if truthyOptDict where_extra then
    some (where_extra.getD [])
  else
    none

theorem dlookup_map_overwrite (d : Dict) (k v k' : String) :
    dlookup k' (d.map (fun p => if p.1 = k then (k, v) else p)) =
      if k' = k then (dlookup k d).map (fun _ => v) else dlookup k' d := by
  induction d with
  | nil => by_cases h : k' = k <;> simp [dlookup, h]
  | cons hd tl ih =>
    obtain ⟨k₁, v₁⟩ := hd
    simp only [List.map_cons]
    by_cases h1 : k₁ = k
    · subst h1
      rw [if_pos rfl]
      by_cases h2 : k' = k₁
      · subst h2
        simp [dlookup, ih]
      · simp only [dlookup]
        rw [if_neg (fun h => h2 h.symm), if_neg h2, ih, if_neg h2,
          if_neg (fun h => h2 h.symm)]
    · rw [if_neg (show ¬ ((k₁, v₁).1 = k) from h1)]
      by_cases h2 : k₁ = k'
      · subst h2
        simp only [dlookup, if_pos rfl]
        rw [if_neg (fun h : k₁ = k => h1 h)]
        simp [dlookup]
      · simp only [dlookup]
        rw [if_neg h2, if_neg h2, ih, if_neg h1]

theorem dlookup_append (d e : Dict) (k : String) :
    dlookup k (d ++ e) =
      match dlookup k d with
      | some v => some v
      | none => dlookup k e := by
  induction d with
  | nil => simp [dlookup]
  | cons hd tl ih =>
    obtain ⟨k₁, v₁⟩ := hd
    by_cases h : k₁ = k <;> simp [dlookup, h, ih]

theorem dlookup_eq_none_of_key_not_mem (k : String) (l : Dict)
    (h : k ∉ l.map Prod.fst) : dlookup k l = none := by
  induction l with
  | nil => rfl
  | cons hd tl ih =>
    obtain ⟨k₁, v₁⟩ := hd
    simp only [List.map_cons, List.mem_cons, not_or] at h
    simp only [dlookup]
    rw [if_neg (fun he => h.1 he.symm)]
    exact ih h.2

theorem dlookup_dictInsert (d : Dict) (k v k' : String) :
    dlookup k' (dictInsert d k v) = if k' = k then some v else dlookup k' d := by
  unfold dictInsert
  by_cases hs : (dlookup k d).isSome
  · rw [if_pos hs, dlookup_map_overwrite]
    by_cases h : k' = k
    · subst h
      obtain ⟨w, hw⟩ := Option.isSome_iff_exists.mp hs
      simp [hw]
    · simp [h]
  · rw [if_neg hs, dlookup_append]
    by_cases h : k' = k
    · subst h
      rw [Option.not_isSome_iff_eq_none] at hs
      simp [hs, dlookup]
    · have hne : ¬ (k = k') := fun he => h he.symm
      rw [if_neg h]
      cases hv : dlookup k' d with
      | some w => rfl
      | none =>
        simp only [dlookup]
        rw [if_neg hne]

theorem isEmpty_false_of_ne (s : String) (hs : s ≠ "") : s.isEmpty = false := by
  cases he : s.isEmpty
  · rfl
  · exact absurd ((String.isEmpty_iff s).mp he) hs

theorem dlookup_dictMerge (d e : Dict) (k : String)
    (hnd : (e.map Prod.fst).Nodup) :
    dlookup k (dictMerge d e) =
      match dlookup k e with
      | some v => some v
      | none => dlookup k d := by
  induction e generalizing d with
  | nil => simp [dictMerge, dlookup]
  | cons hd tl ih =>
    obtain ⟨k₁, v₁⟩ := hd
    simp only [List.map_cons, List.nodup_cons] at hnd
    rw [show dictMerge d ((k₁, v₁) :: tl) = dictMerge (dictInsert d k₁ v₁) tl
      from rfl, ih _ hnd.2]
    by_cases h : k₁ = k
    · subst h
      have htl : dlookup k₁ tl = none := dlookup_eq_none_of_key_not_mem _ _ hnd.1
      rw [htl]
      simp [dlookup, dlookup_dictInsert]
    · simp only [dlookup]
      rw [if_neg h]
      cases hv : dlookup k tl with
      | some w => rfl
      | none =>
        rw [dlookup_dictInsert]
        rw [if_neg (fun he : k = k₁ => h he.symm)]

/-- C1: the metadata filter built by `RagChromaQuery.query` is absent when
neither a step nor extra constraints are given; a single-field
`pipeline_step` equality map when only a step is given; and, when both are
given, one flat equality map holding every extra constraint together with
the stage constraint, except that an extra constraint using the
`pipeline_step` key overrides the step (dict-merge semantics), which is the
amendment to the claim. -/
theorem mkWhere_flattening :
    (mkWhere none none = none ∧ mkWhere (some "") none = none ∧
     mkWhere none (some []) = none ∧ mkWhere (some "") (some []) = none) ∧
    (∀ s : String, s ≠ "" →
      mkWhere (some s) none = some [("pipeline_step", s)] ∧
      mkWhere (some s) (some []) = some [("pipeline_step", s)]) ∧
    (∀ (s : String) (extra : Dict), s ≠ "" → extra ≠ [] →
      (extra.map Prod.fst).Nodup →
      mkWhere (some s) (some extra) =
        some (dictMerge [("pipeline_step", s)] extra) ∧
      dlookup "pipeline_step" (dictMerge [("pipeline_step", s)] extra) =
        some ((dlookup "pipeline_step" extra).getD s) ∧
      (∀ k v, dlookup k extra = some v →
        dlookup k (dictMerge [("pipeline_step", s)] extra) = some v) ∧
      (∀ k, dlookup k (dictMerge [("pipeline_step", s)] extra) ≠ none →
        k = "pipeline_step" ∨ dlookup k extra ≠ none)) := by
  refine ⟨⟨rfl, rfl, rfl, rfl⟩, ?_, ?_⟩
  · intro s hs
    have ht : truthyOptStr (some s) = true := by
      simp [truthyOptStr, isEmpty_false_of_ne s hs]
    constructor <;> simp [mkWhere, ht, truthyOptDict]
  · intro s extra hs hx hnd
    have ht : truthyOptStr (some s) = true := by
      simp [truthyOptStr, isEmpty_false_of_ne s hs]
    have hd : truthyOptDict (some extra) = true := by
      simp [truthyOptDict, hx]
    refine ⟨by simp [mkWhere, ht, hd], ?_, ?_, ?_⟩
    · rw [dlookup_dictMerge _ _ _ hnd]
      cases hv : dlookup "pipeline_step" extra <;> simp [dlookup]
    · intro k v hv
      rw [dlookup_dictMerge _ _ _ hnd, hv]
    · intro k hk
      rw [dlookup_dictMerge _ _ _ hnd] at hk
      cases hv : dlookup k extra with
      | some v => exact Or.inr (by simp [hv])
      | none =>
        rw [hv] at hk
        simp only [dlookup] at hk
        by_cases he : k = "pipeline_step"
        · exact Or.inl he
        · exfalso
          apply hk
          rw [if_neg (fun h : "pipeline_step" = k => he h.symm)]

/-- C1 witness: with step `"Step1_Premise"` and one extra constraint on a
different key, the filter is the flat two-entry equality map and both
constraints are looked up intact. -/
theorem mkWhere_flattening_witness :
    mkWhere (some "Step1_Premise") (some [("category", "premise")]) =
      some [("pipeline_step", "Step1_Premise"), ("category", "premise")] ∧
    dlookup "category" [("pipeline_step", "Step1_Premise"), ("category", "premise")] =
      some "premise" := by
  have h := (mkWhere_flattening.2.2 "Step1_Premise" [("category", "premise")]
    (by decide) (by decide) (by decide))
  refine ⟨?_, ?_⟩
  · rw [h.1]; rfl
  · have := h.2.2.1 "category" "premise" (by rfl)
    simpa using this

/-- C1 counterexample: when the extra constraints themselves bind
`pipeline_step`, the merged filter drops the stage constraint (the extra
value overrides it), so the claim's "all constraints preserved" fails. -/
theorem mkWhere_override_counterexample :
    mkWhere (some "Step1_Premise")
        (some [("pipeline_step", "Step2_Premise_Consistency")]) =
      some [("pipeline_step", "Step2_Premise_Consistency")] ∧
    dlookup "pipeline_step" [("pipeline_step", "Step2_Premise_Consistency")] ≠
      some "Step1_Premise" := by
  constructor
  · rfl
  · decide

/-- C10: with a `None` or empty-string step and no extra filter, the query
is issued with no `where` clause at all; an empty-string step never becomes
a `pipeline_step == ""` constraint, even when extra constraints are
present. -/
theorem mkWhere_empty_step_no_filter :
    mkWhere none none = none ∧
    mkWhere (some "") none = none ∧
    mkWhere (some "") (some []) = none ∧
    dlookup "pipeline_step" ((mkWhere (some "") (some [("category", "x")])).getD []) =
      none := by
  refine ⟨rfl, rfl, rfl, by decide⟩

/-- Python `int(s, 10)` digit tail: decimal digits with single underscores
allowed between digits (CPython numeric-literal grammar); `acc` is the
value of the digits already read. -/
def parseDigitsGo (acc : Nat) : List Char → Option Nat
  | [] => some acc
  | '_' :: c :: rest =>
    if c.isDigit then parseDigitsGo (acc * 10 + (c.toNat - 48)) rest else none
  | ['_'] => none
  | c :: rest =>
    if c.isDigit then parseDigitsGo (acc * 10 + (c.toNat - 48)) rest else none

/-- Python `int(s, 10)` digit run: at least one ASCII digit, underscores
only between digits. -/
def parseDigits : List Char → Option Nat
  | [] => none
  | c :: rest => if c.isDigit then parseDigitsGo (c.toNat - 48) rest else none

/-- Python `int(s)` after whitespace stripping: optional sign, then digits.
Unicode digits, accepted by CPython, are not modelled. -/
def pyIntCore : List Char → Option Int
  | '+' :: rest => (parseDigits rest).map (fun n => (n : Int))
  | '-' :: rest => (parseDigits rest).map (fun n => -(n : Int))
  | l => (parseDigits l).map (fun n => (n : Int))

/-- Python `int(s)`: surrounding whitespace is permitted. -/
def pyInt (s : String) : Option Int :=
  pyIntCore (pyStrip s.data)

/-- STEP_MAP from query_cli.py. -/
def stepMap : List (Int × String) :=
  [(1, "Step1_Premise"), (2, "Step2_Premise_Consistency"),
   (3, "Step3_Act_Structure"), (4, "Step4_Character_Arc"),
   (5, "Step5_Conflict_Escalation"), (6, "Step6_Details")]

/-- The ValueError message for non-numeric stage input (query_cli.py). -/
def stepFmtErr : String := "Pipeline step must be an integer 1~6."

/-- The ValueError message for out-of-range stage input (query_cli.py). -/
def stepRangeErr : String := "Pipeline step must be in 1~6."

/-- The warning printed for a non-integer top-k input (query_cli.py). -/
def topkWarn : String := "Top-k 不是整數，已使用預設值。"

/-- query_cli.py `parse_step`: strip, default to STEP_MAP[1] on blank,
ValueError on non-integer or out-of-range input. (For a `str` argument,
`step_input or ""` is the identity, so it is folded into the strip.) -/
def parse_step (step_input : String) : Except String String :=
  let s := pyStripS step_input
  if s.isEmpty then .ok ((dlookup (1 : Int) stepMap).getD "")
  else
    match pyInt s with
    | none => .error stepFmtErr
    | some n =>
      match dlookup n stepMap with
      | none => .error stepRangeErr
      | some v => .ok v

/-- The stage-selection step of query_cli.py `main` (lines 121-132): call
`parse_step`; on ValueError print a warning and fall back to STEP_MAP[1].
Returns the step used and the warning message, if any. -/
def resolveStep (raw : String) : String × Option String :=
  match parse_step raw with
  | .ok st => (st, none)
  | .error e => ((dlookup (1 : Int) stepMap).getD "", some e)

/-- The top-k selection step of query_cli.py `main`:
`k = int(k_str) if k_str else default_k`, with a warning and the default 6
on ValueError. Returns the k used and the warning message, if any. -/
def resolveTopK (raw : String) : Int × Option String :=
  let s := pyStripS raw
  if s.isEmpty then (6, none)
  else
    match pyInt s with
    | some n => (n, none)
    | none => (6, some topkWarn)

theorem stepMap_lookup_none (n : Int) (h : n < 1 ∨ 6 < n) :
    dlookup n stepMap = none := by
  have h1 : ¬ ((1 : Int) = n) := by omega
  have h2 : ¬ ((2 : Int) = n) := by omega
  have h3 : ¬ ((3 : Int) = n) := by omega
  have h4 : ¬ ((4 : Int) = n) := by omega
  have h5 : ¬ ((5 : Int) = n) := by omega
  have h6 : ¬ ((6 : Int) = n) := by omega
  simp [stepMap, dlookup, h1, h2, h3, h4, h5, h6]

/-- C9: in the interactive surface, a blank stage input yields the default
stage Step1_Premise; a non-numeric non-blank stage input produces the
input-format ValueError and a non-1..6 integer produces the range
ValueError, and in both cases the loop falls back to the default stage
with a visible warning instead of aborting; a blank or non-integer top-k
input falls back to the default result count 6. -/
theorem cli_input_fallbacks :
    (∀ s : String, pyStripS s = "" →
      parse_step s = .ok "Step1_Premise" ∧
      resolveStep s = ("Step1_Premise", none)) ∧
    (∀ s : String, pyStripS s ≠ "" → pyInt (pyStripS s) = none →
      parse_step s = .error stepFmtErr ∧
      resolveStep s = ("Step1_Premise", some stepFmtErr)) ∧
    (∀ (s : String) (n : Int), pyInt (pyStripS s) = some n →
      (n < 1 ∨ 6 < n) →
      parse_step s = .error stepRangeErr ∧
      resolveStep s = ("Step1_Premise", some stepRangeErr)) ∧
    (∀ s : String, pyStripS s = "" → resolveTopK s = (6, none)) ∧
    (∀ s : String, pyStripS s ≠ "" → pyInt (pyStripS s) = none →
      resolveTopK s = (6, some topkWarn)) := by
  refine ⟨?_, ?_, ?_, ?_, ?_⟩
  · intro s h
    have hp : parse_step s = .ok "Step1_Premise" := by
      unfold parse_step
      rw [h]
      rfl
    exact ⟨hp, by simp [resolveStep, hp]⟩
  · intro s h hint
    have he : (pyStripS s).isEmpty = false := isEmpty_false_of_ne _ h
    have hp : parse_step s = .error stepFmtErr := by
      simp [parse_step, he, hint]
    exact ⟨hp, by simp [resolveStep, hp]; rfl⟩
  · intro s n hint hrange
    have hne : pyStripS s ≠ "" := by
      intro he
      rw [he] at hint
      simp [pyInt, pyStrip, stripEnd, pyIntCore, parseDigits] at hint
    have he : (pyStripS s).isEmpty = false := isEmpty_false_of_ne _ hne
    have hp : parse_step s = .error stepRangeErr := by
      simp [parse_step, he, hint, stepMap_lookup_none n hrange]
    exact ⟨hp, by simp [resolveStep, hp]; rfl⟩
  · intro s h
    unfold resolveTopK
    rw [h]
    rfl
  · intro s h hint
    have he : (pyStripS s).isEmpty = false := isEmpty_false_of_ne _ h
    simp [resolveTopK, he, hint]

/-- C9 witness: concrete blank, non-numeric, out-of-range and non-integer
inputs all fall back as described. -/
theorem cli_input_fallbacks_witness :
    parse_step "  " = .ok "Step1_Premise" ∧
    resolveStep "abc" = ("Step1_Premise", some stepFmtErr) ∧
    resolveStep "9" = ("Step1_Premise", some stepRangeErr) ∧
    resolveTopK "" = (6, none) ∧
    resolveTopK "x2" = (6, some topkWarn) :=
  ⟨(cli_input_fallbacks.1 "  " (by decide)).1,
   (cli_input_fallbacks.2.1 "abc" (by decide) (by decide)).2,
   (cli_input_fallbacks.2.2.1 "9" 9 (by decide) (by decide)).2,
   cli_input_fallbacks.2.2.2.1 "" (by decide),
   cli_input_fallbacks.2.2.2.2 "x2" (by decide) (by decide)⟩

/-- Python `text or dflt` for an optional string. -/
def pyOrStr (text : Option String) (dflt : String) : String :=
  match text with
  | none => dflt
  | some s => if s.isEmpty then dflt else s

/-- `RagChromaQuery._e5_query_prefixed`: `text = (text or "").strip()` then
`"query: " + text`. -/
def e5_query_prefixed (text : Option String) : String :=
  "query: " ++ pyStripS (pyOrStr text "")

/-- `RagChromaQuery.embed_query`: builds the prefixed query text and passes
it, as a singleton batch, to the external embedding model `encode` (the
model itself, and its normalize flag, are outside the embedding). -/
def embed_query {α : Type} (encode : List String → α) (query : Option String) : α :=
  encode [e5_query_prefixed query]

/-- C7: for every input string, including the empty string and a missing
`None` value, `embed_query` passes to the underlying model exactly the
string "query: " followed by the input (with `None` read as `""`) trimmed
of leading and trailing whitespace. -/
theorem embed_query_passes_prefixed_trimmed {α : Type}
    (encode : List String → α) (q : Option String) :
    embed_query encode q = encode ["query: " ++ pyStripS (q.getD "")] := by
  cases q with
  | none => rfl
  | some s =>
    unfold embed_query e5_query_prefixed pyOrStr
    cases he : s.isEmpty
    · simp [he]
    · have : s = "" := (String.isEmpty_iff s).mp he
      subst this
      simp

/-- Run a per-line processor over a list of lines, stopping at the first
failure (the behaviour of sequential statements inside the ingestion
loop's body). -/
def processAll {α : Type} (f : String → Except String α) :
    List String → Except String (List α)
  | [] => .ok []
  | l :: rest =>
    match f l with
    | .error e => .error e
    | .ok a =>
      match processAll f rest with
      | .error e => .error e
      | .ok entries => .ok (a :: entries)

/-- The module-level ingestion loop of chromadb_save.py (lines 61-78):
read one line at a time, process it into an index entry (json.loads +
id lookup + build_document + build_metadata, abstracted as `f` since
json.loads is an external library call), append it to the pending batch,
insert the batch into the collection whenever it reaches 200 entries, and
flush a non-empty final batch at end of input. The three parallel lists
ids/docs/metas are folded into one entry list. A processing failure is an
uncaught exception: the loop stops and returns the batches already
inserted together with the error. -/
def ingestLoop {α : Type} (f : String → Except String α) :
    List String → List α → List (List α) → List (List α) × Except String Unit
  | [], pending, inserted =>
    if pending.isEmpty then (inserted, .ok ()) else (inserted ++ [pending], .ok ())
  | line :: rest, pending, inserted =>
    match f line with
    | .error e => (inserted, .error e)
    | .ok entry =>
      let pending' := pending ++ [entry]
      if 200 ≤ pending'.length then ingestLoop f rest [] (inserted ++ [pending'])
      else ingestLoop f rest pending' inserted

/-- The whole ingestion run: the loop started with empty state. -/
def ingestRun {α : Type} (f : String → Except String α) (lines : List String) :
    List (List α) × Except String Unit :=
  ingestLoop f lines [] []

theorem ingestLoop_aborts {α : Type} (f : String → Except String α)
    (bad : String) (post : List String) (e : String) (h2 : f bad = .error e) :
    ∀ (pre : List String) (ens : List α) (pending : List α)
      (inserted : List (List α)),
      processAll f pre = .ok ens →
      (ingestLoop f (pre ++ bad :: post) pending inserted).2 = .error e ∧
      (ingestLoop f (pre ++ bad :: post) pending inserted).1.flatten <+:
        inserted.flatten ++ pending ++ ens := by
  intro pre
  induction pre with
  | nil =>
    intro ens pending inserted h1
    simp only [processAll, Except.ok.injEq] at h1
    subst h1
    simp only [List.nil_append, ingestLoop, h2]
    constructor
    · trivial
    · simp
  | cons l pre' ih =>
    intro ens pending inserted h1
    simp only [processAll] at h1
    cases hf : f l with
    | error e' => simp [hf] at h1
    | ok a =>
      rw [hf] at h1
      cases hrest : processAll f pre' with
      | error e' => simp [hrest] at h1
      | ok entries =>
        rw [hrest] at h1
        simp only [Except.ok.injEq] at h1
        subst h1
        simp only [List.cons_append, ingestLoop, hf]
        by_cases hb : 200 ≤ (pending ++ [a]).length
        · rw [if_pos hb]
          have h := ih entries [] (inserted ++ [pending ++ [a]]) hrest
          refine ⟨h.1, ?_⟩
          have := h.2
          simpa [List.flatten_append, List.append_assoc] using this
        · rw [if_neg hb]
          have h := ih entries (pending ++ [a]) inserted hrest
          refine ⟨h.1, ?_⟩
          have := h.2
          simpa [List.append_assoc] using this

/-- C8: ingestion consumes the input line by line; the first line whose
processing fails aborts the whole run with that error (it is neither
skipped nor replaced by a default), and the store receives only batches
drawn from the lines before the failure: the inserted entries form a
prefix of the entries of the preceding lines, so no line at or after the
failure is ever inserted. -/
theorem ingest_aborts_on_first_bad_line {α : Type}
    (f : String → Except String α) (pre : List String) (bad : String)
    (post : List String) (ens : List α) (e : String)
    (h1 : processAll f pre = .ok ens) (h2 : f bad = .error e) :
    (ingestRun f (pre ++ bad :: post)).2 = .error e ∧
    (ingestRun f (pre ++ bad :: post)).1.flatten <+: ens := by
  have h := ingestLoop_aborts f bad post e h2 pre ens [] [] h1
  exact ⟨h.1, by simpa using h.2⟩

/-- A concrete line processor for the C8 witness: fails on the line
"bad", succeeds on anything else. -/
def demoProcess (l : String) : Except String String :=
  if l = "bad" then .error "boom" else .ok l

/-- C8 witness: with lines ["a", "b", "bad", "c"], the run aborts with the
error of the line "bad" and nothing reaches the store. -/
theorem ingest_aborts_witness :
    (ingestRun demoProcess (["a", "b"] ++ "bad" :: ["c"])).2 = .error "boom" ∧
    (ingestRun demoProcess (["a", "b"] ++ "bad" :: ["c"])).1.flatten <+:
      ["a", "b"] :=
  ingest_aborts_on_first_bad_line demoProcess ["a", "b"] "bad" ["c"]
    ["a", "b"] "boom" (by rfl) (by rfl)

/-- JSON-like values, as produced by `json.loads` for an advice-card
record's fields. -/
inductive JVal : Type where
  | null : JVal
  | bool : Bool → JVal
  | num : Int → JVal
  | str : String → JVal
  | arr : List JVal → JVal
  | obj : List (String × JVal) → JVal

/-- Python truthiness of a JSON value. -/
def jTruthy : JVal → Bool
  | .null => false
  | .bool b => b
  | .num n => n != 0
  | .str s => !s.isEmpty
  | .arr l => !l.isEmpty
  | .obj d => !d.isEmpty

/-- Python `a or b` on JSON values. -/
def pyOr (a b : JVal) : JVal :=
  if jTruthy a then a else b

/-- Python `d.get(k, dflt)` over an object's entry list. -/
def jGetD (d : List (String × JVal)) (k : String) (dflt : JVal) : JVal :=
  (dlookup k d).getD dflt

/-- Python iteration over a value, as the tags list comprehension performs
it: lists yield their elements, strings yield their one-character
substrings, dicts yield their keys, anything else raises TypeError. -/
def pyElems : JVal → Except String (List JVal)
  | .arr l => .ok l
  | .str s => .ok (s.data.map (fun c => JVal.str ⟨[c]⟩))
  | .obj d => .ok (d.map (fun p => JVal.str p.1))
  | _ => .error "TypeError"

/-- Python `isinstance(t, str)` as a filter that also extracts the
string. -/
def strOf? : JVal → Option String
  | .str s => some s
  | _ => none

/-- chromadb_save.py `build_metadata` (lines 47-59), with the local
bindings inlined:

    src = card.get("source") or {}
    tags = card.get("tags") or []
    tags_str = ",".join([t for t in tags if isinstance(t, str)])
    return {"type": card.get("type", ""), ..., "tags": tags_str}

The tags comprehension runs first (it can raise TypeError on a truthy
non-iterable tags value); building the dict then calls `src.get`, which
raises AttributeError when the source value is truthy but not a mapping.
The record itself is assumed to be a mapping (an entry list), matching the
claim's quantification. -/
def build_metadata (card : List (String × JVal)) :
    Except String (List (String × JVal)) :=
  match pyElems (pyOr (jGetD card "tags" JVal.null) (JVal.arr [])) with
  | .error e => .error e
  | .ok tagl =>
    match pyOr (jGetD card "source" JVal.null) (JVal.obj []) with
    | .obj src =>
      .ok [("type", jGetD card "type" (JVal.str "")),
           ("category", jGetD card "category" (JVal.str "")),
           ("pipeline_step", jGetD card "pipeline_step" (JVal.str "")),
           ("source_name", jGetD src "name" (JVal.str "")),
           ("source_url", jGetD src "url" (JVal.str "")),
           ("tags", JVal.str (String.intercalate "," (tagl.filterMap strOf?)))]
    | _ => .error "AttributeError"

/-- The effective source mapping seen by `build_metadata` on a record
whose source field is a mapping or falsy (for stating the success
shape). -/
def srcOf (card : List (String × JVal)) : List (String × JVal) :=
  match pyOr (jGetD card "source" JVal.null) (JVal.obj []) with
  | .obj d => d
  | _ => []

/-- The effective tags list seen by `build_metadata` on a record whose
tags field is a list or falsy. -/
def tagsOf (card : List (String × JVal)) : List JVal :=
  match pyOr (jGetD card "tags" JVal.null) (JVal.arr []) with
  | .arr l => l
  | _ => []

/-- C2 counterexample: the claim fails on the code in two ways. A record
whose source field is a truthy non-mapping makes `build_metadata` raise
(AttributeError on `src.get`), so "never fails for any mapping shape" is
false; and the stage key of the returned mapping is `pipeline_step`, not
`pipeline_stage` as the claim names it. -/
theorem build_metadata_counterexample :
    build_metadata [("source", JVal.num 5)] = .error "AttributeError" ∧
    build_metadata [] =
      .ok [("type", JVal.str ""), ("category", JVal.str ""),
           ("pipeline_step", JVal.str ""), ("source_name", JVal.str ""),
           ("source_url", JVal.str ""), ("tags", JVal.str "")] ∧
    dlookup "pipeline_stage"
      [(("type" : String), JVal.str ""), ("category", JVal.str ""),
       ("pipeline_step", JVal.str ""), ("source_name", JVal.str ""),
       ("source_url", JVal.str ""), ("tags", JVal.str "")] = none :=
  ⟨rfl, rfl, rfl⟩

/-- C2 (amended): for every advice-card record — any mapping whose source
field, when present and truthy, is itself a mapping, and whose tags field,
when present and truthy, is a list — `build_metadata` never fails and
returns a flat mapping with exactly the six keys type, category,
pipeline_step, source_name, source_url, tags, in that order; missing
record or source fields render as the default empty string, never as
absent keys; and tags is the comma-join of exactly the string-typed tag
entries, non-string entries being silently dropped. -/
theorem build_metadata_shape (card : List (String × JVal))
    (hs : jTruthy (jGetD card "source" JVal.null) = false ∨
      ∃ d, jGetD card "source" JVal.null = JVal.obj d)
    (ht : jTruthy (jGetD card "tags" JVal.null) = false ∨
      ∃ l, jGetD card "tags" JVal.null = JVal.arr l) :
    build_metadata card =
      .ok [("type", jGetD card "type" (JVal.str "")),
           ("category", jGetD card "category" (JVal.str "")),
           ("pipeline_step", jGetD card "pipeline_step" (JVal.str "")),
           ("source_name", jGetD (srcOf card) "name" (JVal.str "")),
           ("source_url", jGetD (srcOf card) "url" (JVal.str "")),
           ("tags", JVal.str (String.intercalate ","
             ((tagsOf card).filterMap strOf?)))] ∧
    pyOr (jGetD card "source" JVal.null) (JVal.obj []) = JVal.obj (srcOf card) ∧
    pyOr (jGetD card "tags" JVal.null) (JVal.arr []) = JVal.arr (tagsOf card) := by
  have hsrc : pyOr (jGetD card "source" JVal.null) (JVal.obj [])
      = JVal.obj (srcOf card) := by
    rcases hs with h | ⟨d, hd⟩
    · have hp : pyOr (jGetD card "source" JVal.null) (JVal.obj [])
          = JVal.obj [] := by
        unfold pyOr
        rw [h]
        simp
      unfold srcOf
      rw [hp]
    · have hp : pyOr (jGetD card "source" JVal.null) (JVal.obj [])
          = JVal.obj (if jTruthy (JVal.obj d) then d else []) := by
        unfold pyOr
        rw [hd]
        by_cases hb : jTruthy (JVal.obj d) = true <;> simp [hb]
      unfold srcOf
      rw [hp]
  have htags : pyOr (jGetD card "tags" JVal.null) (JVal.arr [])
      = JVal.arr (tagsOf card) := by
    rcases ht with h | ⟨l, hl⟩
    · have hp : pyOr (jGetD card "tags" JVal.null) (JVal.arr [])
          = JVal.arr [] := by
        unfold pyOr
        rw [h]
        simp
      unfold tagsOf
      rw [hp]
    · have hp : pyOr (jGetD card "tags" JVal.null) (JVal.arr [])
          = JVal.arr (if jTruthy (JVal.arr l) then l else []) := by
        unfold pyOr
        rw [hl]
        by_cases hb : jTruthy (JVal.arr l) = true <;> simp [hb]
      unfold tagsOf
      rw [hp]
  refine ⟨?_, hsrc, htags⟩
  unfold build_metadata
  rw [htags, hsrc]
  simp [pyElems]

/-- C2 witness: a record carrying only a mixed tags list gets the full
six-key shape, empty-string defaults, and only the string tags joined. -/
theorem build_metadata_shape_witness :
    build_metadata [("tags", JVal.arr [JVal.str "a", JVal.num 3, JVal.str "b"])] =
      .ok [("type", JVal.str ""), ("category", JVal.str ""),
           ("pipeline_step", JVal.str ""), ("source_name", JVal.str ""),
           ("source_url", JVal.str ""), ("tags", JVal.str "a,b")] := by
  have h := build_metadata_shape
    [("tags", JVal.arr [JVal.str "a", JVal.num 3, JVal.str "b"])]
    (Or.inl rfl) (Or.inr ⟨[JVal.str "a", JVal.num 3, JVal.str "b"], rfl⟩)
  rw [h.1]
  rfl

/-- A schema-conformant advice card: the fields `build_document` renders,
with the types §3 of the data model gives them. The source reads them with
`card.get(...)` and truthiness tests, so a missing optional field and an
empty one are indistinguishable; both are modelled as `""` or `[]`. -/
structure Card where
  title : String
  content : String
  items : List String
  symptoms : List String
  root_cause : String
  fix : List String

/-- Python `"\n".join(parts)` on character lists. -/
def joinLines : List (List Char) → List Char
  | [] => []
  | [p] => p
  | p :: rest => p ++ '\n' :: joinLines rest

/-- The `parts` list built by chromadb_save.py `build_document`
(lines 21-43): six conditional appends in fixed order, each list field
contributing a header line and one "- item" line per element. -/
def docParts (c : Card) : List (List Char) :=
  (if c.title = "" then [] else [("Title: " ++ c.title).data]) ++
  (if c.content = "" then [] else [("Content: " ++ c.content).data]) ++
  (if c.items = [] then [] else
    "Checklist Items:".data :: c.items.map (fun x => ("- " ++ x).data)) ++
  (if c.symptoms = [] then [] else
    "Symptoms:".data :: c.symptoms.map (fun x => ("- " ++ x).data)) ++
  (if c.root_cause = "" then [] else [("Root cause: " ++ c.root_cause).data]) ++
  (if c.fix = [] then [] else
    "Fix:".data :: c.fix.map (fun x => ("- " ++ x).data))

/-- chromadb_save.py `build_document` (line 45):
`"passage: " + "\n".join(parts).strip()`. Pure and total: no side effects,
no failure paths. -/
def build_document (c : Card) : String :=
  ⟨"passage: ".data ++ pyStrip (joinLines (docParts c))⟩

/-- A text field rendered as the spec words it: one `prefix+value` line,
omitted entirely when the value is empty (no empty headers). -/
def textFieldLines (pre : String) (v : String) : List (List Char) :=
  if v = "" then [] else [pre.data ++ v.data]

/-- A list field rendered as the spec words it: a header line plus one
"- item" bullet line per element, omitted entirely when empty. -/
def listFieldLines (header : String) (vs : List String) : List (List Char) :=
  if vs = [] then [] else header.data :: vs.map (fun x => '-' :: ' ' :: x.data)

/-- The document as the spec describes it: non-empty fields rendered in
the fixed order Title, Content, Checklist Items, Symptoms, Root cause,
Fix; lines joined with newlines; the joined body stripped of surrounding
whitespace; the literal passage-role prefix prepended. -/
def specDocument (c : Card) : String :=
  ⟨"passage: ".data ++ pyStrip (joinLines
    (textFieldLines "Title: " c.title ++
     textFieldLines "Content: " c.content ++
     listFieldLines "Checklist Items:" c.items ++
     listFieldLines "Symptoms:" c.symptoms ++
     textFieldLines "Root cause: " c.root_cause ++
     listFieldLines "Fix:" c.fix))⟩

/-- C3: `build_document` produces exactly the document the spec describes
(passage-role prefix, fixed field order, bullet lines, newline join,
stripped body, empty fields contributing no lines), and two records with
identical field values produce byte-identical output. It is a total Lean
function, so it has no side effects or failure modes. -/
theorem build_document_matches_spec :
    (∀ c : Card, build_document c = specDocument c) ∧
    (∀ c₁ c₂ : Card, c₁.title = c₂.title → c₁.content = c₂.content →
      c₁.items = c₂.items → c₁.symptoms = c₂.symptoms →
      c₁.root_cause = c₂.root_cause → c₁.fix = c₂.fix →
      build_document c₁ = build_document c₂) := by
  constructor
  · intro c
    unfold build_document specDocument docParts textFieldLines listFieldLines
    rfl
  · intro c₁ c₂ h1 h2 h3 h4 h5 h6
    cases c₁
    cases c₂
    simp only at h1 h2 h3 h4 h5 h6
    subst h1 h2 h3 h4 h5 h6
    rfl

/-- C3 witness: on a concrete card the two renderings agree and the output
is the expected document text. -/
theorem build_document_matches_spec_witness :
    build_document ⟨"T", "Hello", [], [], "", ["do X"]⟩ =
      specDocument ⟨"T", "Hello", [], [], "", ["do X"]⟩ ∧
    build_document ⟨"T", "Hello", [], [], "", ["do X"]⟩ =
      build_document ⟨"T", "Hello", [], [], "", ["do X"]⟩ ∧
    build_document ⟨"T", "Hello", [], [], "", ["do X"]⟩ =
      "passage: Title: T\nContent: Hello\nFix:\n- do X" :=
  ⟨build_document_matches_spec.1 ⟨"T", "Hello", [], [], "", ["do X"]⟩,
   build_document_matches_spec.2 ⟨"T", "Hello", [], [], "", ["do X"]⟩
     ⟨"T", "Hello", [], [], "", ["do X"]⟩ rfl rfl rfl rfl rfl rfl,
   by rfl⟩

/-- A Python float as the shaper produces it: either the NaN sentinel from
`float("nan")` or a finite value carried through from the store. -/
inductive PyFloat : Type where
  | nan : PyFloat
  | val : Rat → PyFloat

/-- Stored metadata as returned by the store for one hit. -/
abbrev Mdata := List (String × String)

/-- rag_chroma_query.py `RagHit`: one retrieval result. -/
structure RagHit where
  id : String
  distance : PyFloat
  document : Option String
  metadata : Mdata

/-- The raw mapping returned by `collection.query`: each key optional
(absent key = `none`), each value a list of per-query rows. -/
structure RawResult where
  ids : Option (List (List String))
  distances : Option (List (List (Option Rat)))
  documents : Option (List (List (Option String)))
  metadatas : Option (List (List Mdata))

/-- Python `l[0]`: IndexError on an empty list. -/
def pyHead {α : Type} : List α → Except String α
  | [] => .error "IndexError"
  | a :: _ => .ok a

/-- Python `l[i]`: IndexError when out of range. -/
def pyIdx {α : Type} (l : List α) (i : Nat) : Except String α :=
  match l.get? i with
  | some a => .ok a
  | none => .error "IndexError"

/-- The `for i, _id in enumerate(ids)` loop of `RagChromaQuery.query`
(rag_chroma_query.py lines 131-140): one RagHit per id, with
`float(dists[i]) if dists[i] is not None else float("nan")`,
`docs[i] if docs else None`, and `metas[i] if metas else {}`. -/
def shapeLoopAux (dists : List (Option Rat)) (docs : List (Option String))
    (metas : List Mdata) : Nat → List String → Except String (List RagHit)
  | _, [] => .ok []
  | i, hid :: rest =>
    match pyIdx dists i with
    | .error e => .error e
    | .ok dv =>
      match (if docs.isEmpty then (Except.ok none : Except String (Option String))
          else pyIdx docs i) with
      | .error e => .error e
      | .ok doc =>
        match (if metas.isEmpty then (Except.ok [] : Except String Mdata)
            else pyIdx metas i) with
        | .error e => .error e
        | .ok md =>
          match shapeLoopAux dists docs metas (i + 1) rest with
          | .error e => .error e
          | .ok hits =>
            .ok ({ id := hid,
                   distance := match dv with
                     | some q => PyFloat.val q
                     | none => PyFloat.nan,
                   document := doc, metadata := md } :: hits)

/-- The result-shaping section of `RagChromaQuery.query`
(rag_chroma_query.py lines 125-140):

    ids = res.get("ids", [[]])[0]
    dists = res.get("distances", [[]])[0] if "distances" in res else [None] * len(ids)
    docs = res.get("documents", [[]])[0] if "documents" in res else [None] * len(ids)
    metas = res.get("metadatas", [[]])[0] if "metadatas" in res else [{}] * len(ids)

followed by the per-id loop. -/
def shape (res : RawResult) : Except String (List RagHit) :=
  match pyHead (res.ids.getD [[]]) with
  | .error e => .error e
  | .ok ids =>
    match (match res.distances with
        | some outer => pyHead outer
        | none => .ok (List.replicate ids.length none)) with
    | .error e => .error e
    | .ok dists =>
      match (match res.documents with
          | some outer => pyHead outer
          | none => .ok (List.replicate ids.length none)) with
      | .error e => .error e
      | .ok docs =>
        match (match res.metadatas with
            | some outer => pyHead outer
            | none => .ok (List.replicate ids.length ([] : Mdata))) with
        | .error e => .error e
        | .ok metas => shapeLoopAux dists docs metas 0 ids

/-- A raw result with one row per present key (the shape Chroma returns
for a single query embedding). -/
def mkRawResult (idr : List String) (drow : Option (List (Option Rat)))
    (docrow : Option (List (Option String))) (mrow : Option (List Mdata)) :
    RawResult :=
  ⟨some [idr], drow.map (fun r => [r]), docrow.map (fun r => [r]),
   mrow.map (fun r => [r])⟩

/-- The distance of the i-th hit as the loop computes it from an effective
distances row. -/
def distAt (dists : List (Option Rat)) (i : Nat) : PyFloat :=
  match dists.get? i with
  | some (some q) => PyFloat.val q
  | _ => PyFloat.nan

/-- The document of the i-th hit as the loop computes it. -/
def docAt (docs : List (Option String)) (i : Nat) : Option String :=
  if docs.isEmpty then none else (docs.get? i).getD none

/-- The metadata of the i-th hit as the loop computes it. -/
def metaAt (metas : List Mdata) (i : Nat) : Mdata :=
  if metas.isEmpty then [] else (metas.get? i).getD []

/-- The distance the spec prescribes for the i-th hit of a raw result:
NaN when the distances array is missing or the value is null. -/
def specDistance (drow : Option (List (Option Rat))) (i : Nat) : PyFloat :=
  match drow with
  | none => PyFloat.nan
  | some r => distAt r i

/-- The document the spec prescribes for the i-th hit: absent when the
documents array is missing (or its row empty). -/
def specDocAt (docrow : Option (List (Option String))) (i : Nat) : Option String :=
  match docrow with
  | none => none
  | some r => docAt r i

/-- The metadata the spec prescribes for the i-th hit: empty when the
metadatas array is missing (or its row empty). -/
def specMetaAt (mrow : Option (List Mdata)) (i : Nat) : Mdata :=
  match mrow with
  | none => []
  | some r => metaAt r i

/-- The effective per-id row the shaper works from: the stored row when
the key is present, a defaulted row otherwise. -/
def effRow {α : Type} (row : Option (List α)) (dflt : α) (n : Nat) : List α :=
  match row with
  | some r => r
  | none => List.replicate n dflt

theorem enumFrom_fst_lt {α : Type} (l : List α) :
    ∀ (n : Nat) (p : Nat × α), p ∈ List.enumFrom n l → p.1 < n + l.length := by
  induction l with
  | nil =>
    intro n p h
    simp [List.enumFrom] at h
  | cons a t ih =>
    intro n p h
    rw [show List.enumFrom n (a :: t) = (n, a) :: List.enumFrom (n + 1) t
      from rfl] at h
    rcases List.mem_cons.mp h with h | h
    · subst h
      simp
    · have := ih (n + 1) p h
      simp only [List.length_cons]
      omega

theorem get_replicate_of_lt {α : Type} (a : α) :
    ∀ (n i : Nat), i < n → (List.replicate n a).get? i = some a := by
  intro n
  induction n with
  | zero => intro i h; omega
  | succ m ih =>
    intro i h
    cases i with
    | zero => rfl
    | succ j =>
      rw [List.replicate_succ]
      simpa using ih j (by omega)

theorem shapeLoopAux_ok (dists : List (Option Rat)) (docs : List (Option String))
    (metas : List Mdata) :
    ∀ (ids : List String) (i : Nat),
      i + ids.length ≤ dists.length →
      (docs = [] ∨ i + ids.length ≤ docs.length) →
      (metas = [] ∨ i + ids.length ≤ metas.length) →
      shapeLoopAux dists docs metas i ids =
        .ok ((List.enumFrom i ids).map (fun p =>
          { id := p.2, distance := distAt dists p.1,
            document := docAt docs p.1, metadata := metaAt metas p.1 })) := by
  intro ids
  induction ids with
  | nil =>
    intro i _ _ _
    rfl
  | cons hid rest ih =>
    intro i hd hdoc hm
    have hi : i < dists.length := by
      simp only [List.length_cons] at hd
      omega
    obtain ⟨dv, hdv⟩ : ∃ dv, dists.get? i = some dv := by
      rw [List.get?_eq_get hi]
      exact ⟨_, rfl⟩
    have hdocv : (if docs.isEmpty then (Except.ok none : Except String (Option String))
        else pyIdx docs i) = .ok (docAt docs i) := by
      rcases hdoc with hde | hdl
      · subst hde
        rfl
      · have hi2 : i < docs.length := by
          simp only [List.length_cons] at hdl
          omega
        have hne : docs.isEmpty = false := by
          cases docs
          · simp at hi2
          · rfl
        obtain ⟨a, ha⟩ : ∃ a, docs.get? i = some a := by
          rw [List.get?_eq_get hi2]
          exact ⟨_, rfl⟩
        have ha' : docs[i]? = some a := by
          rw [← List.get?_eq_getElem?]
          exact ha
        simp [hne, pyIdx, ha, ha', docAt]
    have hmv : (if metas.isEmpty then (Except.ok [] : Except String Mdata)
        else pyIdx metas i) = .ok (metaAt metas i) := by
      rcases hm with hme | hml
      · subst hme
        rfl
      · have hi2 : i < metas.length := by
          simp only [List.length_cons] at hml
          omega
        have hne : metas.isEmpty = false := by
          cases metas
          · simp at hi2
          · rfl
        obtain ⟨a, ha⟩ : ∃ a, metas.get? i = some a := by
          rw [List.get?_eq_get hi2]
          exact ⟨_, rfl⟩
        have ha' : metas[i]? = some a := by
          rw [← List.get?_eq_getElem?]
          exact ha
        simp [hne, pyIdx, ha, ha', metaAt]
    have hrest := ih (i + 1)
      (by simp only [List.length_cons] at hd; omega)
      (by rcases hdoc with h | h
          · exact Or.inl h
          · right
            simp only [List.length_cons] at h
            omega)
      (by rcases hm with h | h
          · exact Or.inl h
          · right
            simp only [List.length_cons] at h
            omega)
    have hdv' : dists[i]? = some dv := by
      rw [← List.get?_eq_getElem?]
      exact hdv
    have hpy : pyIdx dists i = Except.ok dv := by
      unfold pyIdx
      rw [hdv]
    cases dv with
    | some q =>
      simp only [shapeLoopAux, hpy, hdocv, hmv, hrest]
      rw [show List.enumFrom i (hid :: rest) = (i, hid) :: List.enumFrom (i + 1) rest
        from rfl]
      simp [distAt, hdv']
    | none =>
      simp only [shapeLoopAux, hpy, hdocv, hmv, hrest]
      rw [show List.enumFrom i (hid :: rest) = (i, hid) :: List.enumFrom (i + 1) rest
        from rfl]
      simp [distAt, hdv']

/-- C5 (amended): for every raw store result whose present first-row
arrays cover every returned id (the documents/metadatas rows may instead
be empty), the shaper produces exactly one fully-populated QueryHit per
returned id without crashing: a missing distances array or a null distance
value becomes the NaN sentinel, a missing documents array (or empty row)
yields an absent document, and a missing metadatas array (or empty row)
yields an empty metadata map. A present distances row shorter than the id
list is instead an IndexError — the amendment to the claim. -/
theorem shape_populates_hits (idr : List String)
    (drow : Option (List (Option Rat))) (docrow : Option (List (Option String)))
    (mrow : Option (List Mdata))
    (hd : ∀ r, drow = some r → idr.length ≤ r.length)
    (hdoc : ∀ r, docrow = some r → r = [] ∨ idr.length ≤ r.length)
    (hm : ∀ r, mrow = some r → r = [] ∨ idr.length ≤ r.length) :
    shape (mkRawResult idr drow docrow mrow) =
      .ok ((List.enumFrom 0 idr).map (fun p =>
        { id := p.2, distance := specDistance drow p.1,
          document := specDocAt docrow p.1, metadata := specMetaAt mrow p.1 })) := by
  have hsh : shape (mkRawResult idr drow docrow mrow) =
      shapeLoopAux (effRow drow none idr.length) (effRow docrow none idr.length)
        (effRow mrow [] idr.length) 0 idr := by
    cases drow <;> cases docrow <;> cases mrow <;> rfl
  have hd' : 0 + idr.length ≤ (effRow drow none idr.length).length := by
    cases drow with
    | none => simp [effRow]
    | some r =>
      have := hd r rfl
      simpa [effRow] using this
  have hdoc' : effRow docrow none idr.length = [] ∨
      0 + idr.length ≤ (effRow docrow none idr.length).length := by
    cases docrow with
    | none => right; simp [effRow]
    | some r =>
      rcases hdoc r rfl with h | h
      · left; simp [effRow, h]
      · right; simpa [effRow] using h
  have hm' : effRow mrow [] idr.length = [] ∨
      0 + idr.length ≤ (effRow mrow [] idr.length).length := by
    cases mrow with
    | none => right; simp [effRow]
    | some r =>
      rcases hm r rfl with h | h
      · left; simp [effRow, h]
      · right; simpa [effRow] using h
  rw [hsh, shapeLoopAux_ok _ _ _ idr 0 hd' hdoc' hm']
  refine congrArg Except.ok (List.map_congr_left ?_)
  intro p hp
  have hlt : p.1 < idr.length := by
    have := enumFrom_fst_lt idr 0 p hp
    omega
  have hdisteq : distAt (effRow drow none idr.length) p.1 = specDistance drow p.1 := by
    cases drow with
    | none =>
      have : (List.replicate idr.length (none : Option Rat)).get? p.1 = some none :=
        get_replicate_of_lt _ _ _ hlt
      simp only [effRow, specDistance, distAt]
      rw [this]
    | some r => rfl
  have hdoceq : docAt (effRow docrow none idr.length) p.1 = specDocAt docrow p.1 := by
    cases docrow with
    | none =>
      have h0 : 0 < idr.length := by omega
      have hne : (List.replicate idr.length (none : Option String)).isEmpty = false := by
        cases hn : idr.length with
        | zero => omega
        | succ m => rw [List.replicate_succ]; rfl
      have : (List.replicate idr.length (none : Option String)).get? p.1 = some none :=
        get_replicate_of_lt _ _ _ hlt
      simp only [effRow, specDocAt, docAt, hne]
      rw [this]
      rfl
    | some r => rfl
  have hmeq : metaAt (effRow mrow [] idr.length) p.1 = specMetaAt mrow p.1 := by
    cases mrow with
    | none =>
      have hne : (List.replicate idr.length ([] : Mdata)).isEmpty = false := by
        cases hn : idr.length with
        | zero => omega
        | succ m => rw [List.replicate_succ]; rfl
      have : (List.replicate idr.length ([] : Mdata)).get? p.1 = some [] :=
        get_replicate_of_lt _ _ _ hlt
      simp only [effRow, specMetaAt, metaAt, hne]
      rw [this]
      rfl
    | some r => rfl
  rw [hdisteq, hdoceq, hmeq]

/-- C5 counterexample: a raw result whose distances key is present but
whose first row does not cover the returned ids crashes with IndexError
instead of producing hits, so "for every raw store result ... without
crashing" fails as stated. -/
theorem shape_short_distances_counterexample :
    shape (RawResult.mk (some [["a"]]) (some [[]]) none none) =
      .error "IndexError" := rfl

/-- C5 witness: one id with a null distance and absent documents/metadatas
arrays yields exactly one hit with the NaN sentinel, no document, and
empty metadata. -/
theorem shape_populates_hits_witness :
    shape (mkRawResult ["a"] (some [none]) none none) =
      .ok [{ id := "a", distance := PyFloat.nan, document := none,
             metadata := [] }] := by
  have h := shape_populates_hits ["a"] (some [none]) none none
    (by intro r hr; cases hr; simp)
    (by intro r hr; cases hr)
    (by intro r hr; cases hr)
  rw [h]
  rfl

/-- The literal matched by the `\bContent:` head of CONTENT_RE
(query_cli.py lines 30-33). -/
def contentMarker : List Char := "Content:".data

/-- The recognised section markers of CONTENT_RE's terminator
alternation. -/
def sectionMarkers : List (List Char) :=
  ["Checklist Items:".data, "Symptoms:".data, "Root cause:".data, "Fix:".data]

/-- Whether one of the recognised section markers starts at this suffix. -/
def startsWithAny (l : List Char) : Bool :=
  sectionMarkers.any (fun h => h.isPrefixOf l)

/-- Python `$` without re.MULTILINE: matches at the end of the string or
just before a final newline. -/
def dollarHere (l : List Char) : Bool :=
  l.isEmpty || l = ['\n']

/-- Whether CONTENT_RE's terminator
`\n(?:Checklist Items:|Symptoms:|Root cause:|Fix:|$)` matches at this
suffix. -/
def termHere : List Char → Bool
  | [] => false
  | c :: r => c = '\n' && (startsWithAny r || dollarHere r)

/-- The lazy `(?P<content>.*?)` scan: the shortest prefix whose following
suffix satisfies the terminator (with re.DOTALL the dot crosses newlines,
so every split point is a candidate); `none` when the terminator occurs
nowhere. -/
def scanContent : List Char → Option (List Char)
  | [] => none
  | c :: rest =>
    if termHere (c :: rest) then some []
    else (scanContent rest).map (fun g => c :: g)

/-- Length of the greedy `\s*` prefix at this suffix. -/
def wsCount : List Char → Nat
  | [] => 0
  | c :: rest => if pyWsChar c then wsCount rest + 1 else 0

/-- Backtracking for `\s*(?P<content>.*?)` + terminator: try the greedy
`\s*` width first and shrink it on failure, running the lazy scan after
each width. -/
def tryWs (l : List Char) : Nat → Option (List Char)
  | 0 => scanContent l
  | n + 1 =>
    match scanContent (l.drop (n + 1)) with
    | some g => some g
    | none => tryWs l n

/-- Attempt the part of CONTENT_RE after `\bContent:` at this suffix. -/
def tryMatchAt (l : List Char) : Option (List Char) :=
  tryWs l (wsCount l)

/-- Python `\w` restricted to ASCII: a word character. -/
def isWordChar (c : Char) : Bool :=
  c.isAlphanum || c = '_'

/-- Whether `\b` holds right before the `C` of a candidate `Content:`
occurrence: at the start of the string, or after a non-word character. -/
def boundaryOk : Option Char → Bool
  | none => true
  | some c => !isWordChar c

/-- `CONTENT_RE.search`: try each start position from the left; where
`\bContent:` matches, run the rest of the pattern with backtracking; on
failure resume at the next start position. Returns the content group of
the leftmost successful match. -/
def searchContent (prev : Option Char) : List Char → Option (List Char)
  | [] => none
  | c :: rest =>
    if boundaryOk prev && contentMarker.isPrefixOf (c :: rest) then
      match tryMatchAt ((c :: rest).drop contentMarker.length) with
      | some g => some g
      | none => searchContent (some c) rest
    else searchContent (some c) rest

/-- The newline normalisation of `extract_content`:
`document.replace("\r\n", "\n").replace("\r", "\n")`. The two sequential
replaces turn each `\r\n` pair into one `\n` (left to right,
non-overlapping) and then each remaining lone `\r` into `\n`; the fused
single pass below does exactly that. -/
def normCRLF : List Char → List Char
  | [] => []
  | [c] => [if c = '\r' then '\n' else c]
  | c1 :: c2 :: rest =>
    if c1 = '\r' && c2 = '\n' then '\n' :: normCRLF rest
    else (if c1 = '\r' then '\n' else c1) :: normCRLF (c2 :: rest)

/-- Python `s.replace(old, "", 1)`: remove the first occurrence of the
(non-empty) pattern. -/
def removeFirst (pat : List Char) : List Char → List Char
  | [] => []
  | c :: rest =>
    if pat.isPrefixOf (c :: rest) then (c :: rest).drop pat.length
    else c :: removeFirst pat rest

/-- query_cli.py `extract_content` (lines 55-63): falsy documents give "";
otherwise normalise newlines, search CONTENT_RE and strip the content
group; with no match, remove the first "passage: " occurrence and
strip. -/
def extract_content (document : Option String) : String :=
  match document with
  | none => ""
  | some d =>
    if d.isEmpty then ""
    else
      match searchContent none (normCRLF d.data) with
      | some g => ⟨pyStrip g⟩
      | none => ⟨pyStrip (removeFirst "passage: ".data (normCRLF d.data))⟩

theorem isPrefixOf_append_self (l t : List Char) : l.isPrefixOf (l ++ t) = true :=
  List.isPrefixOf_iff_prefix.mpr ⟨t, rfl⟩

/-- Decidable check that the pattern occurs nowhere in `l` (at no start
position). -/
def noOccB (pat l : List Char) : Bool :=
  (List.range (l.length + 1)).all (fun k => !(pat.isPrefixOf (l.drop k)))

theorem noOcc_of_noOccB (pat l : List Char) (hne : pat ≠ [])
    (h : noOccB pat l = true) : ∀ k, ¬ pat <+: l.drop k := by
  intro k hpre
  by_cases hk : k ≤ l.length
  · have hmem : k ∈ List.range (l.length + 1) := List.mem_range.mpr (by omega)
    have hall := List.all_eq_true.mp h k hmem
    rw [List.isPrefixOf_iff_prefix.mpr hpre] at hall
    exact absurd hall (by decide)
  · have hd : l.drop k = [] := List.drop_eq_nil_of_le (by omega)
    rw [hd] at hpre
    exact hne (List.prefix_nil.mp hpre)

theorem searchContent_none (l : List Char) :
    ∀ (prev : Option Char), (∀ k, ¬ contentMarker <+: l.drop k) →
      searchContent prev l = none := by
  induction l with
  | nil =>
    intro prev _
    rfl
  | cons c rest ih =>
    intro prev h
    have hp : contentMarker.isPrefixOf (c :: rest) = false := by
      cases hb : contentMarker.isPrefixOf (c :: rest)
      · rfl
      · exact absurd (List.isPrefixOf_iff_prefix.mp hb) (by simpa using h 0)
    simp only [searchContent, hp, Bool.and_false, Bool.false_eq_true, if_false]
    exact ih (some c) (fun k => by simpa using h (k + 1))

theorem normCRLF_cons_no_cr (c : Char) (rest : List Char) (h : ¬ c = '\r') :
    normCRLF (c :: rest) = c :: normCRLF rest := by
  cases rest with
  | nil => simp [normCRLF, h]
  | cons c2 r => simp [normCRLF, h]

theorem normCRLF_append_no_cr (P Q : List Char) (h : ('\r' : Char) ∉ P) :
    normCRLF (P ++ Q) = P ++ normCRLF Q := by
  induction P with
  | nil => rfl
  | cons c rest ih =>
    simp only [List.mem_cons, not_or] at h
    rw [List.cons_append, normCRLF_cons_no_cr c _ (fun he => h.1 he.symm),
      ih h.2]
    rfl

theorem normCRLF_id_no_cr (l : List Char) (h : ('\r' : Char) ∉ l) :
    normCRLF l = l := by
  have := normCRLF_append_no_cr l [] h
  simpa [normCRLF] using this

theorem extract_content_no_marker (s : String)
    (hcr : ('\r' : Char) ∉ s.data)
    (hno : noOccB contentMarker s.data = true) :
    extract_content (some s) = ⟨pyStrip (removeFirst "passage: ".data s.data)⟩ := by
  unfold extract_content
  cases he : s.isEmpty
  · have hid : normCRLF s.data = s.data := normCRLF_id_no_cr _ hcr
    simp only [he, Bool.false_eq_true, if_false, hid,
      searchContent_none s.data none (noOcc_of_noOccB _ _ (by decide) hno)]
  · have hs : s = "" := (String.isEmpty_iff s).mp he
    subst hs
    rfl

/-- C6 counterexample: the string "Content: Hello" contains the marker, so
the claim prescribes the text between the marker and the end of the string
("Hello"); but CONTENT_RE's terminator requires a literal newline before
its next-marker-or-end alternation, so nothing matches and the fallback
returns the whole string instead. -/
theorem extract_content_marker_at_end_counterexample :
    extract_content (some "Content: Hello") = "Content: Hello" ∧
    "Content: Hello" ≠ "Hello" := by
  constructor
  · decide
  · decide

/-- C6 (amended): extract_content extracts "Hello" from the scenario
document; and for every CR-free string containing no "Content:" substring
it returns the string with the first occurrence of "passage: " removed and
surrounding whitespace stripped. (When the marker is present, the text up
to the next recognised marker is extracted only if a newline-terminated
section follows; a marker section running to the end of the string takes
the fallback path instead.) -/
theorem extract_content_behaviour :
    extract_content
      (some "passage: Title: T\nContent: Hello\nFix:\n- do X") = "Hello" ∧
    (∀ s : String, ('\r' : Char) ∉ s.data → noOccB contentMarker s.data = true →
      extract_content (some s) =
        ⟨pyStrip (removeFirst "passage: ".data s.data)⟩) :=
  ⟨by decide, fun s hcr hno => extract_content_no_marker s hcr hno⟩

/-- C6 witness: a concrete marker-free document takes the fallback, with
the passage prefix removed and whitespace stripped. -/
theorem extract_content_behaviour_witness :
    extract_content (some "passage: no marker here ") = "no marker here" := by
  have h := extract_content_behaviour.2 "passage: no marker here "
    (by decide) (by decide)
  rw [h]
  rfl

/-- C4 counterexample: for a card whose non-empty content is the last
non-empty section, the round trip returns the whole prefix-stripped
document, not the content: `build_document` strips trailing whitespace, so
no newline follows the content and CONTENT_RE cannot terminate. -/
theorem roundtrip_last_section_counterexample :
    extract_content (some (build_document ⟨"T", "Hello", [], [], "", []⟩)) =
      "Title: T\nContent: Hello" ∧
    "Title: T\nContent: Hello" ≠ "Hello" := by
  constructor
  · decide
  · decide

theorem prefix_split (pat w x : List Char) (h : pat <+: w ++ x) :
    pat <+: w ∨ w <+: pat :=
  List.prefix_or_prefix_of_prefix h ⟨x, rfl⟩

theorem mem_of_prefix_through (pat u v : List Char) (b : Char)
    (h : pat <+: u ++ b :: v) (hl : u.length < pat.length) : b ∈ pat := by
  obtain ⟨t, ht⟩ := h
  have h1 : (pat ++ t)[u.length]? = some b := by
    rw [ht, List.getElem?_append_right (le_refl u.length)]
    simp
  rw [List.getElem?_append_left hl] at h1
  exact List.getElem?_mem h1

/-- Decidable check that no occurrence of the pattern can begin inside
`u`, whatever follows it: at every start position inside `u`, the pattern
neither fits there nor could the remaining suffix of `u` be a prefix of
the pattern. -/
def cleanFor (pat u : List Char) : Bool :=
  (List.range u.length).all (fun k =>
    !(pat.isPrefixOf (u.drop k)) && !((u.drop k).isPrefixOf pat))

theorem noStart_of_cleanFor (pat u : List Char) (h : cleanFor pat u = true) :
    ∀ (x : List Char) (k : Nat), k < u.length → ¬ pat <+: (u ++ x).drop k := by
  intro x k hk hpre
  have hmem : k ∈ List.range u.length := List.mem_range.mpr hk
  have hall := List.all_eq_true.mp h k hmem
  rw [Bool.and_eq_true] at hall
  rw [List.drop_append_of_le_length (le_of_lt hk)] at hpre
  rcases prefix_split pat (u.drop k) x hpre with h1 | h1
  · rw [List.isPrefixOf_iff_prefix.mpr h1] at hall
    exact absurd hall.1 (by decide)
  · rw [List.isPrefixOf_iff_prefix.mpr h1] at hall
    exact absurd hall.2 (by decide)

theorem noStart_append (pat u v : List Char)
    (hu : ∀ (x : List Char) (k : Nat), k < u.length → ¬ pat <+: (u ++ x).drop k)
    (hv : ∀ (x : List Char) (k : Nat), k < v.length → ¬ pat <+: (v ++ x).drop k) :
    ∀ (x : List Char) (k : Nat), k < (u ++ v).length →
      ¬ pat <+: ((u ++ v) ++ x).drop k := by
  intro x k hk
  rw [List.append_assoc]
  by_cases hku : k < u.length
  · exact hu (v ++ x) k hku
  · intro hpre
    have hk2 : k - u.length < v.length := by
      simp only [List.length_append] at hk
      omega
    apply hv x (k - u.length) hk2
    have heq : (u ++ (v ++ x)).drop k = (v ++ x).drop (k - u.length) := by
      have hke : k = u.length + (k - u.length) := by omega
      rw [hke, List.drop_append]
      congr 1
      omega
    rw [heq] at hpre
    exact hpre

theorem noStart_through_nl (pat T : List Char)
    (hnl : ('\n' : Char) ∉ pat) (hne : pat ≠ [])
    (hT : ∀ j, ¬ pat <+: T.drop j) :
    ∀ (x : List Char) (k : Nat), k < (T ++ ['\n']).length →
      ¬ pat <+: ((T ++ ['\n']) ++ x).drop k := by
  intro x k hk hpre
  rw [List.append_assoc, List.singleton_append] at hpre
  by_cases hkT : k < T.length
  · rw [List.drop_append_of_le_length (le_of_lt hkT)] at hpre
    rcases prefix_split pat (T.drop k) ('\n' :: x) hpre with h1 | h1
    · exact hT k h1
    · rcases Nat.lt_or_ge (T.drop k).length pat.length with h2 | h2
      · exact hnl (mem_of_prefix_through pat (T.drop k) x '\n' hpre h2)
      · have heq : T.drop k = pat := List.IsPrefix.eq_of_length_le h1 h2
        exact hT k (by rw [heq])
  · have hkeq : k = T.length := by
      simp only [List.length_append, List.length_cons, List.length_nil] at hk
      omega
    subst hkeq
    rw [List.drop_left] at hpre
    cases hp : pat with
    | nil => exact hne hp
    | cons p ps =>
      rw [hp] at hpre
      obtain ⟨t, ht⟩ := hpre
      have hpn : p = '\n' := by
        rw [List.cons_append] at ht
        injection ht with h1 _
      apply hnl
      rw [hp, ← hpn]
      exact List.mem_cons_self p ps

/-- The character just before a given suffix position, as the search
carries it for the `\b` test. -/
def prevAfter (prev : Option Char) : List Char → Option Char
  | [] => prev
  | c :: rest => prevAfter (some c) rest

theorem prevAfter_concat (xs : List Char) (c : Char) :
    ∀ prev, prevAfter prev (xs ++ [c]) = some c := by
  induction xs with
  | nil =>
    intro prev
    rfl
  | cons a t ih =>
    intro prev
    exact ih (some a)

theorem searchContent_skip (a : List Char) :
    ∀ (rest : List Char) (prev : Option Char),
      (∀ k, k < a.length → ¬ contentMarker <+: (a ++ rest).drop k) →
      searchContent prev (a ++ rest) = searchContent (prevAfter prev a) rest := by
  induction a with
  | nil =>
    intro rest prev _
    rfl
  | cons c a' ih =>
    intro rest prev h
    have hp : contentMarker.isPrefixOf (c :: (a' ++ rest)) = false := by
      cases hb : contentMarker.isPrefixOf (c :: (a' ++ rest))
      · rfl
      · exact absurd (List.isPrefixOf_iff_prefix.mp hb)
          (by simpa using h 0 (by simp))
    rw [show (c :: a') ++ rest = c :: (a' ++ rest) from rfl]
    simp only [searchContent, hp, Bool.and_false, Bool.false_eq_true, if_false]
    rw [ih rest (some c) (fun k hk => by
      simpa using h (k + 1) (by simp only [List.length_cons]; omega))]
    rfl

theorem scanContent_through (Cc : List Char) (R : List Char)
    (hnl : ('\n' : Char) ∉ Cc) (hR : startsWithAny R = true) :
    scanContent (Cc ++ '\n' :: R) = some Cc := by
  induction Cc with
  | nil =>
    simp only [List.nil_append, scanContent]
    rw [if_pos]
    simp [termHere, hR]
  | cons c C' ih =>
    simp only [List.mem_cons, not_or] at hnl
    simp only [List.cons_append, scanContent, List.append_eq]
    rw [if_neg, ih hnl.2]
    · rfl
    · simp only [termHere, Bool.and_eq_true, decide_eq_true_eq]
      rintro ⟨h1, -⟩
      exact hnl.1 h1.symm

theorem tryMatchAt_finds (c0 : Char) (C' R : List Char)
    (hws : pyWsChar c0 = false) (hnl : ('\n' : Char) ∉ c0 :: C')
    (hR : startsWithAny R = true) :
    tryMatchAt (' ' :: c0 :: (C' ++ '\n' :: R)) = some (c0 :: C') := by
  have hw : wsCount (' ' :: c0 :: (C' ++ '\n' :: R)) = 1 := by
    simp [wsCount, hws]
    decide
  unfold tryMatchAt
  rw [hw]
  have hscan : scanContent ((' ' :: c0 :: (C' ++ '\n' :: R)).drop 1) =
      some (c0 :: C') := by
    rw [show (' ' :: c0 :: (C' ++ '\n' :: R)).drop 1 =
      (c0 :: C') ++ '\n' :: R from rfl]
    exact scanContent_through (c0 :: C') R hnl hR
  simp only [tryWs, hscan]

theorem searchContent_finds (a : List Char) (c0 : Char) (C' Hd w : List Char)
    (hA : ∀ k, k < a.length →
      ¬ contentMarker <+:
        (a ++ (contentMarker ++ ' ' :: c0 :: (C' ++ '\n' :: (Hd ++ w)))).drop k)
    (hb : boundaryOk (prevAfter none a) = true)
    (hws : pyWsChar c0 = false)
    (hnl : ('\n' : Char) ∉ c0 :: C')
    (hHd : startsWithAny (Hd ++ w) = true) :
    searchContent none
        (a ++ (contentMarker ++ ' ' :: c0 :: (C' ++ '\n' :: (Hd ++ w)))) =
      some (c0 :: C') := by
  rw [searchContent_skip a _ none hA]
  set t := ' ' :: c0 :: (C' ++ '\n' :: (Hd ++ w)) with ht
  have hcons : contentMarker ++ t = 'C' :: ("ontent:".data ++ t) := rfl
  rw [hcons]
  have hguard : (boundaryOk (prevAfter none a) &&
      contentMarker.isPrefixOf ('C' :: ("ontent:".data ++ t))) = true := by
    rw [hb, ← hcons, isPrefixOf_append_self]
    rfl
  simp only [searchContent, hguard, if_true]
  have hdrop : ('C' :: ("ontent:".data ++ t)).drop contentMarker.length = t := rfl
  rw [hdrop, ht]
  rw [tryMatchAt_finds c0 C' (Hd ++ w) hws hnl hHd]

theorem dropWhile_cons_nonws (c : Char) (l : List Char) (h : pyWsChar c = false) :
    (c :: l).dropWhile pyWsChar = c :: l := by
  simp [List.dropWhile_cons, h]

theorem stripEnd_concat_append (xs w : List Char) (b : Char)
    (hb : pyWsChar b = false) :
    stripEnd ((xs ++ [b]) ++ w) = (xs ++ [b]) ++ stripEnd w := by
  unfold stripEnd
  rw [List.reverse_append, List.reverse_concat, List.dropWhile_append]
  by_cases he : (w.reverse.dropWhile pyWsChar).isEmpty
  · rw [if_pos he]
    have hw : w.reverse.dropWhile pyWsChar = [] := by
      simpa using he
    rw [dropWhile_cons_nonws b _ hb, hw]
    simp
  · rw [if_neg he]
    simp [List.reverse_append]

theorem pyStrip_cons_nonws (c : Char) (l : List Char) (h : pyWsChar c = false) :
    pyStrip (c :: l) = stripEnd (c :: l) := by
  unfold pyStrip
  rw [dropWhile_cons_nonws c l h]

theorem head_nonws_of_pyStrip_fix (c : Char) (l : List Char)
    (h : pyStrip (c :: l) = c :: l) : pyWsChar c = false := by
  cases hc : pyWsChar c
  · rfl
  · exfalso
    have hlen := congrArg List.length h
    unfold pyStrip stripEnd at hlen
    rw [List.dropWhile_cons, if_pos hc] at hlen
    have h1 : ((l.dropWhile pyWsChar).reverse.dropWhile pyWsChar).length ≤
        (l.dropWhile pyWsChar).length := by
      have := (List.dropWhile_suffix pyWsChar
        (l := (l.dropWhile pyWsChar).reverse)).sublist.length_le
      simpa using this
    have h2 : (l.dropWhile pyWsChar).length ≤ l.length :=
      (List.dropWhile_suffix pyWsChar).sublist.length_le
    rw [List.length_reverse, List.length_cons] at hlen
    omega

theorem data_eq_nil_iff (s : String) : s.data = [] ↔ s = "" := by
  constructor
  · intro h
    cases s with
    | mk d =>
      simp only at h
      rw [h]
  · intro h
    rw [h]

theorem marker_no_cr : ∀ Hd ∈ sectionMarkers, ('\r' : Char) ∉ Hd := by decide

theorem startsWithAny_marker (Hd z : List Char) (h : Hd ∈ sectionMarkers) :
    startsWithAny (Hd ++ z) = true := by
  unfold startsWithAny
  rw [List.any_eq_true]
  exact ⟨Hd, h, isPrefixOf_append_self Hd z⟩

theorem joinLines_cons_cons (p q : List Char) (r : List (List Char)) :
    joinLines (p :: q :: r) = p ++ '\n' :: joinLines (q :: r) := rfl

theorem joinLines_cons_exists (s0 : List Char) (r : List (List Char)) :
    ∃ w, joinLines (s0 :: r) = s0 ++ w := by
  cases r with
  | nil => exact ⟨[], by simp [joinLines]⟩
  | cons q r' => exact ⟨'\n' :: joinLines (q :: r'), rfl⟩

theorem roundtrip_core (X' : List Char) (c0 : Char) (C' Hd w0 : List Char)
    (hXhead : X' = [] ∨ ∃ xc xs, X' = xc :: xs ∧ pyWsChar xc = false)
    (hXr : ('\r' : Char) ∉ X')
    (hA : ∀ (x : List Char) (k : Nat), k < ("passage: ".data ++ X').length →
      ¬ contentMarker <+: (("passage: ".data ++ X') ++ x).drop k)
    (hbnd : boundaryOk (prevAfter none ("passage: ".data ++ X')) = true)
    (hws : pyWsChar c0 = false)
    (hnlC : ('\n' : Char) ∉ c0 :: C')
    (hcrC : ('\r' : Char) ∉ c0 :: C')
    (hfix : pyStrip (c0 :: C') = c0 :: C')
    (hHd : Hd ∈ sectionMarkers)
    (hcol : ∃ hdInit, Hd = hdInit ++ [':']) :
    extract_content (some ⟨"passage: ".data ++
        pyStrip (X' ++ (contentMarker ++ ' ' :: c0 :: (C' ++ '\n' :: (Hd ++ w0))))⟩) =
      ⟨c0 :: C'⟩ := by
  obtain ⟨hdInit, hcolEq⟩ := hcol
  have hHdr : ('\r' : Char) ∉ Hd := marker_no_cr Hd hHd
  -- the body before stripping, and its head
  obtain ⟨bc, bt, hB, hbc⟩ : ∃ bc bt,
      X' ++ (contentMarker ++ ' ' :: c0 :: (C' ++ '\n' :: (Hd ++ w0))) = bc :: bt ∧
      pyWsChar bc = false := by
    rcases hXhead with hXe | ⟨xc, xs, hX, hxc⟩
    · subst hXe
      exact ⟨'C', _, rfl, by decide⟩
    · subst hX
      exact ⟨xc, _, rfl, hxc⟩
  -- stripping leaves the structured prefix intact
  have hsplit : X' ++ (contentMarker ++ ' ' :: c0 :: (C' ++ '\n' :: (Hd ++ w0))) =
      ((X' ++ (contentMarker ++ ' ' :: c0 :: (C' ++ ['\n'] ++ hdInit))) ++ [':'])
        ++ w0 := by
    rw [hcolEq]
    simp [List.append_assoc]
  have hstrip : pyStrip (X' ++ (contentMarker ++ ' ' :: c0 :: (C' ++ '\n' :: (Hd ++ w0)))) =
      ((X' ++ (contentMarker ++ ' ' :: c0 :: (C' ++ ['\n'] ++ hdInit))) ++ [':'])
        ++ stripEnd w0 := by
    rw [hB, pyStrip_cons_nonws bc bt hbc, ← hB, hsplit,
      stripEnd_concat_append _ _ ':' (by decide)]
  rw [hstrip]
  -- the full document character list
  have hcr : ('\r' : Char) ∉ "passage: ".data ++
      (((X' ++ (contentMarker ++ ' ' :: c0 :: (C' ++ ['\n'] ++ hdInit))) ++ [':'])) := by
    have hcrInit : ('\r' : Char) ∉ hdInit := fun hm =>
      hHdr (by rw [hcolEq]; exact List.mem_append.mpr (Or.inl hm))
    intro hmem
    rcases List.mem_append.mp hmem with h | h
    · exact absurd h (by decide)
    rcases List.mem_append.mp h with h | h
    · rcases List.mem_append.mp h with h | h
      · exact hXr h
      rcases List.mem_append.mp h with h | h
      · exact absurd h (by decide)
      rcases List.mem_cons.mp h with h | h
      · exact absurd h (by decide)
      rcases List.mem_cons.mp h with h | h
      · exact hcrC (by rw [h]; exact List.mem_cons_self _ _)
      rcases List.mem_append.mp h with h | h
      · rcases List.mem_append.mp h with h | h
        · exact hcrC (List.mem_cons.mpr (Or.inr h))
        · exact absurd h (by decide)
      · exact hcrInit h
    · exact absurd h (by decide)
  -- the document string is non-empty
  have hne : (⟨"passage: ".data ++
      (((X' ++ (contentMarker ++ ' ' :: c0 :: (C' ++ ['\n'] ++ hdInit))) ++ [':'])
        ++ stripEnd w0)⟩ : String) ≠ "" := by
    intro h
    have := (data_eq_nil_iff _).mpr h
    simp only at this
    exact absurd this (by simp)
  simp only [extract_content]
  rw [isEmpty_false_of_ne _ hne]
  simp only [Bool.false_eq_true, if_false]
  rw [show (['p', 'a', 's', 's', 'a', 'g', 'e', ':', ' '] : List Char) =
    "passage: ".data from rfl]
  have hnorm : normCRLF (("passage: ".data ++
      (((X' ++ (contentMarker ++ ' ' :: c0 :: (C' ++ ['\n'] ++ hdInit))) ++ [':'])
        ++ stripEnd w0) : List Char)) =
      ("passage: ".data ++
        ((X' ++ (contentMarker ++ ' ' :: c0 :: (C' ++ ['\n'] ++ hdInit))) ++ [':']))
        ++ normCRLF (stripEnd w0) := by
    rw [show ("passage: ".data ++
      (((X' ++ (contentMarker ++ ' ' :: c0 :: (C' ++ ['\n'] ++ hdInit))) ++ [':'])
        ++ stripEnd w0) : List Char) =
      ("passage: ".data ++
        ((X' ++ (contentMarker ++ ' ' :: c0 :: (C' ++ ['\n'] ++ hdInit))) ++ [':']))
        ++ stripEnd w0 from by simp [List.append_assoc]]
    exact normCRLF_append_no_cr _ _ hcr
  have hre : ("passage: ".data ++
        ((X' ++ (contentMarker ++ ' ' :: c0 :: (C' ++ ['\n'] ++ hdInit))) ++ [':']))
        ++ normCRLF (stripEnd w0) =
      ("passage: ".data ++ X') ++
        (contentMarker ++ ' ' :: c0 :: (C' ++ '\n' ::
          (Hd ++ normCRLF (stripEnd w0)))) := by
    rw [hcolEq]
    simp [List.append_assoc]
  have hsearch := searchContent_finds ("passage: ".data ++ X') c0 C' Hd
    (normCRLF (stripEnd w0))
    (fun k hk => hA _ k hk) hbnd hws hnlC
    (startsWithAny_marker Hd _ hHd)
  rw [hnorm, hre, hsearch]
  show (⟨pyStrip (c0 :: C')⟩ : String) = ⟨c0 :: C'⟩
  rw [hfix]

/-- The checklist/symptoms/root-cause/fix tail of the parts list,
right-associated (for locating the first line after the content line). -/
def laterSections (c : Card) : List (List Char) :=
  (if c.items = [] then [] else
    "Checklist Items:".data :: c.items.map (fun x => ("- " ++ x).data)) ++
  ((if c.symptoms = [] then [] else
    "Symptoms:".data :: c.symptoms.map (fun x => ("- " ++ x).data)) ++
  ((if c.root_cause = "" then [] else [("Root cause: " ++ c.root_cause).data]) ++
   (if c.fix = [] then [] else
    "Fix:".data :: c.fix.map (fun x => ("- " ++ x).data))))

theorem docParts_decomp (c : Card) (h1 : c.content ≠ "") :
    docParts c = (if c.title = "" then [] else [("Title: " ++ c.title).data]) ++
      (("Content: " ++ c.content).data :: laterSections c) := by
  unfold docParts laterSections
  rw [if_neg h1]
  simp [List.append_assoc]

theorem first_section (c : Card)
    (h6 : c.items ≠ [] ∨ c.symptoms ≠ [] ∨ c.root_cause ≠ "" ∨ c.fix ≠ []) :
    ∃ Hd hr Srest, laterSections c = (Hd ++ hr) :: Srest ∧
      Hd ∈ sectionMarkers ∧ ∃ hdInit, Hd = hdInit ++ [':'] := by
  unfold laterSections
  by_cases hi : c.items = []
  · rw [if_pos hi]
    simp only [List.nil_append]
    by_cases hsy : c.symptoms = []
    · rw [if_pos hsy]
      simp only [List.nil_append]
      by_cases hrc : c.root_cause = ""
      · rw [if_pos hrc]
        simp only [List.nil_append]
        by_cases hf : c.fix = []
        · exfalso
          rcases h6 with h | h | h | h
          · exact h hi
          · exact h hsy
          · exact h hrc
          · exact h hf
        · rw [if_neg hf]
          exact ⟨"Fix:".data, [], c.fix.map (fun x => ("- " ++ x).data),
            by simp, by decide, ⟨"Fix".data, rfl⟩⟩
      · rw [if_neg hrc]
        refine ⟨"Root cause:".data, ' ' :: c.root_cause.data,
          (if c.fix = [] then [] else
            "Fix:".data :: c.fix.map (fun x => ("- " ++ x).data)), ?_,
          by decide, ⟨"Root cause".data, rfl⟩⟩
        rw [show ("Root cause: " ++ c.root_cause).data =
          "Root cause:".data ++ (' ' :: c.root_cause.data) from rfl]
        rfl
    · rw [if_neg hsy]
      exact ⟨"Symptoms:".data, [], c.symptoms.map (fun x => ("- " ++ x).data) ++
        ((if c.root_cause = "" then [] else [("Root cause: " ++ c.root_cause).data]) ++
         (if c.fix = [] then [] else
          "Fix:".data :: c.fix.map (fun x => ("- " ++ x).data))),
        by simp, by decide, ⟨"Symptoms".data, rfl⟩⟩
  · rw [if_neg hi]
    exact ⟨"Checklist Items:".data, [], c.items.map (fun x => ("- " ++ x).data) ++
      ((if c.symptoms = [] then [] else
        "Symptoms:".data :: c.symptoms.map (fun x => ("- " ++ x).data)) ++
       ((if c.root_cause = "" then [] else [("Root cause: " ++ c.root_cause).data]) ++
        (if c.fix = [] then [] else
         "Fix:".data :: c.fix.map (fun x => ("- " ++ x).data)))),
      by simp, by decide, ⟨"Checklist Items".data, rfl⟩⟩

/-- C4 (amended): for every AdviceCard whose content is a non-empty
single-line CR-free string equal to its own strip, whose CR-free
title does not contain the substring "Content:", and which has at
least one non-empty section after the content (items, symptoms, root
cause, or fix), applying extract_content to the document produced by
build_document returns exactly the card's original content field. (The
counterexample forces the later-section requirement; the remaining
conditions exclude the other inputs on which the regex cannot recover the
field as written: multi-line or untrimmed content, and titles containing
the marker.) -/
theorem extract_build_roundtrip (c : Card)
    (h1 : c.content ≠ "")
    (h2 : pyStripS c.content = c.content)
    (h3n : ('\n' : Char) ∉ c.content.data)
    (h3r : ('\r' : Char) ∉ c.content.data)
    (h4r : ('\r' : Char) ∉ c.title.data)
    (h5 : noOccB contentMarker c.title.data = true)
    (h6 : c.items ≠ [] ∨ c.symptoms ≠ [] ∨ c.root_cause ≠ "" ∨ c.fix ≠ []) :
    extract_content (some (build_document c)) = c.content := by
  obtain ⟨c0, C', hC⟩ : ∃ c0 C', c.content.data = c0 :: C' := by
    cases hcd : c.content.data with
    | nil => exact absurd ((data_eq_nil_iff _).mp hcd) h1
    | cons a b => exact ⟨a, b, rfl⟩
  have hstripC : pyStrip c.content.data = c.content.data := congrArg String.data h2
  have hfix : pyStrip (c0 :: C') = c0 :: C' := by
    rw [← hC]
    exact hstripC
  have hws0 : pyWsChar c0 = false := head_nonws_of_pyStrip_fix c0 C' hfix
  have hnlC : ('\n' : Char) ∉ c0 :: C' := by
    rw [← hC]
    exact h3n
  have hcrC : ('\r' : Char) ∉ c0 :: C' := by
    rw [← hC]
    exact h3r
  obtain ⟨Hd, hr, Srest, hS, hmem, hcol⟩ := first_section c h6
  have hcl : ("Content: " ++ c.content).data =
      contentMarker ++ (' ' :: (c0 :: C')) := by
    rw [show ("Content: " ++ c.content).data =
      contentMarker ++ (' ' :: c.content.data) from rfl, hC]
  by_cases ht : c.title = ""
  · have hparts : docParts c =
        ("Content: " ++ c.content).data :: (Hd ++ hr) :: Srest := by
      rw [docParts_decomp c h1, if_pos ht, hS]
      rfl
    obtain ⟨w', hw'⟩ := joinLines_cons_exists (Hd ++ hr) Srest
    have hjoin : joinLines (docParts c) =
        [] ++ (contentMarker ++ ' ' :: c0 ::
          (C' ++ '\n' :: (Hd ++ (hr ++ w')))) := by
      rw [hparts, joinLines_cons_cons, hw', hcl]
      simp [List.append_assoc]
    have hbd : build_document c = ⟨"passage: ".data ++
        pyStrip ([] ++ (contentMarker ++ ' ' :: c0 ::
          (C' ++ '\n' :: (Hd ++ (hr ++ w')))))⟩ := by
      unfold build_document
      rw [hjoin]
    rw [hbd]
    rw [roundtrip_core [] c0 C' Hd (hr ++ w')
      (Or.inl rfl)
      (by simp)
      (fun x k hk => by
        have hres := noStart_of_cleanFor contentMarker "passage: ".data
          (by decide) x k (by simpa using hk)
        simpa using hres)
      (by decide)
      hws0 hnlC hcrC hfix hmem hcol]
    rw [← hC]
  · have htl : ("Title: " ++ c.title).data =
        'T' :: ("itle: ".data ++ c.title.data) := rfl
    set X' : List Char := ("Title: " ++ c.title).data ++ ['\n'] with hX'
    have hparts : docParts c = ("Title: " ++ c.title).data ::
        ("Content: " ++ c.content).data :: (Hd ++ hr) :: Srest := by
      rw [docParts_decomp c h1, if_neg ht, hS]
      rfl
    obtain ⟨w', hw'⟩ := joinLines_cons_exists (Hd ++ hr) Srest
    have hjoin : joinLines (docParts c) =
        X' ++ (contentMarker ++ ' ' :: c0 ::
          (C' ++ '\n' :: (Hd ++ (hr ++ w')))) := by
      rw [hparts, joinLines_cons_cons, joinLines_cons_cons, hw', hcl, hX']
      simp [List.append_assoc]
    have hbd : build_document c = ⟨"passage: ".data ++
        pyStrip (X' ++ (contentMarker ++ ' ' :: c0 ::
          (C' ++ '\n' :: (Hd ++ (hr ++ w')))))⟩ := by
      unfold build_document
      rw [hjoin]
    rw [hbd]
    have hT := noOcc_of_noOccB contentMarker c.title.data (by decide) h5
    have hXr : ('\r' : Char) ∉ X' := by
      rw [hX']
      intro hm
      rcases List.mem_append.mp hm with h | h
      · rw [show ("Title: " ++ c.title).data =
          "Title: ".data ++ c.title.data from rfl] at h
        rcases List.mem_append.mp h with h | h
        · exact absurd h (by decide)
        · exact h4r h
      · exact absurd h (by decide)
    have hAres := noStart_append contentMarker
      ("passage: ".data ++ "Title: ".data) (c.title.data ++ ['\n'])
      (noStart_of_cleanFor contentMarker
        ("passage: ".data ++ "Title: ".data) (by decide))
      (noStart_through_nl contentMarker c.title.data (by decide) (by decide) hT)
    have hlisteq : ∀ x : List Char,
        (("passage: ".data ++ "Title: ".data) ++ (c.title.data ++ ['\n'])) ++ x =
        ("passage: ".data ++ X') ++ x := by
      intro x
      rw [hX', show ("Title: " ++ c.title).data =
        "Title: ".data ++ c.title.data from rfl]
      simp [List.append_assoc]
    have hlen : (("passage: ".data ++ "Title: ".data) ++
        (c.title.data ++ ['\n'])).length = ("passage: ".data ++ X').length := by
      have hl0 := congrArg List.length (hlisteq [])
      simpa using hl0
    rw [roundtrip_core X' c0 C' Hd (hr ++ w')
      (Or.inr ⟨'T', ("itle: ".data ++ c.title.data) ++ ['\n'],
        by rw [hX', htl, List.cons_append], by decide⟩)
      hXr
      (fun x k hk => by
        have hres := hAres x k (by rw [hlen]; exact hk)
        rw [hlisteq x] at hres
        exact hres)
      (by
        have hpv : "passage: ".data ++ X' =
            ("passage: ".data ++ ("Title: " ++ c.title).data) ++ ['\n'] := by
          rw [hX']
          simp [List.append_assoc]
        rw [hpv, prevAfter_concat]
        decide)
      hws0 hnlC hcrC hfix hmem hcol]
    rw [← hC]

/-- C4 witness: the spec's scenario card round-trips — extracting from its
built document returns the original content "Hello". -/
theorem extract_build_roundtrip_witness :
    extract_content (some (build_document ⟨"T", "Hello", [], [], "", ["do X"]⟩)) =
      "Hello" :=
  extract_build_roundtrip ⟨"T", "Hello", [], [], "", ["do X"]⟩
    (by decide) (by decide) (by decide) (by decide) (by decide) (by decide)
    (by simp)
